import Mathlib

/-!
Verification of the Fluxnet packet-I/O core against its specification.

The definitions below are a shallow embedding of the Rust sources:

* `wadd` / `wsub` model `u32` wrapping addition and subtraction;
* `Ring` models one SPSC ring as seen from one side: the shared `producer`
  and `consumer` 32-bit indices and the slot array, indexed through the
  power-of-two mask `size - 1` exactly as the source does
  (`descriptors[idx & (size - 1)]`);
* the producer operations (`available`, `reserve`, `submit`, `write_at`) and
  consumer operations (`peek`, `release`, `read_at`, `consumer_idx`) are
  translated from `crates/fluxnet-core/src/ring/producer.rs` and
  `crates/fluxnet-core/src/ring/consumer.rs` (the `fluxcapacitor-core` crate
  re-exports ring halves with the same semantics, as its in-crate tests show);
* `UmemLayout` is from `crates/fluxcapacitor-core/src/umem/layout.rs`;
* the engine batch cycle is from
  `crates/fluxcapacitor/src/engine/runner.rs` (`FluxEngine::process_batch`,
  `FluxEngine::with_config`);
* the split TX half is from `crates/fluxcapacitor/src/system/tx.rs` together
  with the owned-packet drop behaviour of
  `crates/fluxnet/src/packet/owned.rs`;
* the simulator control surface is from `crates/fluxnet/src/simulator.rs`.

Arithmetic notes: Rust integer arithmetic is modelled with its release-mode
(wrapping) semantics; `u32` casts are `% 2^32`.  Memory pointers are modelled
as integer offsets from the UMEM base.
-/

namespace Fluxnet

/-- `2^32`, the modulus of all free-running 32-bit ring indices. -/
def U32MOD : Nat := 4294967296

/-- `u32` wrapping addition. -/
def wadd (a b : Nat) : Nat := (a + b) % U32MOD

/-- `u32` wrapping subtraction `a - b` (the value of `a.wrapping_sub(b)`,
and of `a - b` in a release build). -/
def wsub (a b : Nat) : Nat := (a + (U32MOD - b % U32MOD)) % U32MOD

theorem U32MOD_pos : 0 < U32MOD := by decide

theorem U32MOD_eq_pow : U32MOD = 2 ^ 32 := by norm_num [U32MOD]

theorem wadd_lt (a b : Nat) : wadd a b < U32MOD := Nat.mod_lt _ U32MOD_pos

theorem wadd_zero (a : Nat) (h : a < U32MOD) : wadd a 0 = a := by
  simp [wadd, Nat.mod_eq_of_lt h]

theorem wsub_self (a : Nat) : wsub a a = 0 := by
  simp only [wsub, U32MOD]
  omega

/-- For in-range operands with `b ≤ a`, wrapping subtraction is subtraction. -/
theorem wsub_eq_sub (a b : Nat) (ha : a < U32MOD) (hb : b ≤ a) : wsub a b = a - b := by
  simp only [wsub, U32MOD] at *
  omega

theorem two_pow_dvd_U32MOD {k : Nat} (hk : k ≤ 32) : 2 ^ k ∣ U32MOD := by
  rw [U32MOD_eq_pow]
  exact pow_dvd_pow 2 hk

/-- Reducing mod `2^32` first does not change a residue mod `2^k`, `k ≤ 32`. -/
theorem mod_U32_mod_pow {k : Nat} (hk : k ≤ 32) (a : Nat) :
    a % U32MOD % 2 ^ k = a % 2 ^ k :=
  Nat.mod_mod_of_dvd a (two_pow_dvd_U32MOD hk)

theorem mod_U32_add_mod_pow {k : Nat} (hk : k ≤ 32) (a b : Nat) :
    (a % U32MOD + b) % 2 ^ k = (a + b) % 2 ^ k := by
  rw [Nat.add_mod, mod_U32_mod_pow hk, ← Nat.add_mod]

/-- `(s + m) % n` differs from `s % n` whenever `0 < m < n`. -/
theorem add_mod_ne_self (s m n : Nat) (h0 : 0 < m) (h1 : m < n) :
    (s + m) % n ≠ s % n := by
  intro h
  have hmod : Nat.ModEq n (s + m) (s + 0) := by
    simpa [Nat.ModEq] using h
  have hm0 : Nat.ModEq n m 0 := Nat.ModEq.add_left_cancel' s hmod
  have : m % n = 0 := by simpa [Nat.ModEq] using hm0
  rw [Nat.mod_eq_of_lt h1] at this
  omega

/-- One side of an SPSC ring: the two shared free-running `u32` indices and
the slot array.  A slot holding logical index `i` is `slots (i &&& (size - 1))`,
as in the source (`descriptors[idx & (size - 1)]`). -/
structure Ring (α : Type) where
  size : Nat
  producer : Nat
  consumer : Nat
  slots : Nat → α

namespace Ring

variable {α : Type}

/-- The masked slot cell for logical index `i`: `i & (size - 1)`. -/
def maskIdx (r : Ring α) (i : Nat) : Nat := i &&& (r.size - 1)

/-- `ProducerRing::available` (fluxnet-core/src/ring/producer.rs):
`size - producer.wrapping_sub(consumer)`, itself a wrapping `u32` subtraction. -/
def available (r : Ring α) : Nat := wsub r.size (wsub r.producer r.consumer)

/-- `ProducerRing::reserve`: `None` if `available < count`, else the current
producer index.  It mutates nothing. -/
def reserve (r : Ring α) (count : Nat) : Option Nat :=
  if r.available < count then none else some r.producer

/-- `ProducerRing::submit`: store the new producer index (a `u32`). -/
def submit (r : Ring α) (idx : Nat) : Ring α :=
  { r with producer := idx % U32MOD }

/-- `ProducerRing::write_at`: write `item` to `descriptors[idx & mask]`. -/
def writeAt (r : Ring α) (idx : Nat) (v : α) : Ring α :=
  { r with slots := Function.update r.slots (r.maskIdx idx) v }

/-- `ConsumerRing::peek` (fluxnet-core/src/ring/consumer.rs):
`available = producer - consumer` (wrapping in a release build); returns `0`
when empty, else `min(available, count)`. -/
def peek (r : Ring α) (count : Nat) : Nat :=
  if wsub r.producer r.consumer = 0 then 0
  else min (wsub r.producer r.consumer) count

/-- `ConsumerRing::release`: store `consumer + count` (wrapping `u32` add). -/
def release (r : Ring α) (count : Nat) : Ring α :=
  { r with consumer := wadd r.consumer count }

/-- `ConsumerRing::read_at`: read `descriptors[idx & mask]`. -/
def readAt (r : Ring α) (idx : Nat) : α := r.slots (r.maskIdx idx)

/-- `ConsumerRing::consumer_idx`. -/
def consumerIdx (r : Ring α) : Nat := r.consumer

/-- A producer-side write loop: write the items at consecutive (wrapping)
indices starting at `start`, returning the ring and the final index — the
shape of every `for i in 0..count { write_at(prod, …); prod += 1 }` loop in
the engine. -/
def writeSeq (r : Ring α) (start : Nat) (items : List α) : Ring α × Nat :=
  items.foldl (fun acc v => (acc.1.writeAt acc.2 v, wadd acc.2 1)) (r, start)

@[simp] theorem writeAt_size (r : Ring α) (i : Nat) (v : α) : (r.writeAt i v).size = r.size := rfl

@[simp] theorem writeAt_producer (r : Ring α) (i : Nat) (v : α) :
    (r.writeAt i v).producer = r.producer := rfl

@[simp] theorem writeAt_consumer (r : Ring α) (i : Nat) (v : α) :
    (r.writeAt i v).consumer = r.consumer := rfl

@[simp] theorem submit_size (r : Ring α) (i : Nat) : (r.submit i).size = r.size := rfl

@[simp] theorem submit_slots (r : Ring α) (i : Nat) : (r.submit i).slots = r.slots := rfl

@[simp] theorem submit_producer (r : Ring α) (i : Nat) : (r.submit i).producer = i % U32MOD := rfl

@[simp] theorem submit_consumer (r : Ring α) (i : Nat) : (r.submit i).consumer = r.consumer := rfl

@[simp] theorem release_size (r : Ring α) (i : Nat) : (r.release i).size = r.size := rfl

@[simp] theorem release_slots (r : Ring α) (i : Nat) : (r.release i).slots = r.slots := rfl

@[simp] theorem release_producer (r : Ring α) (i : Nat) : (r.release i).producer = r.producer := rfl

@[simp] theorem release_consumer (r : Ring α) (i : Nat) :
    (r.release i).consumer = wadd r.consumer i := rfl

@[simp] theorem writeSeq_nil (r : Ring α) (s : Nat) : writeSeq r s [] = (r, s) := rfl

@[simp] theorem writeSeq_cons (r : Ring α) (s : Nat) (v : α) (vs : List α) :
    writeSeq r s (v :: vs) = writeSeq (r.writeAt s v) (wadd s 1) vs := rfl

theorem writeSeq_size (r : Ring α) (s : Nat) (items : List α) :
    (writeSeq r s items).1.size = r.size := by
  induction items generalizing r s with
  | nil => rfl
  | cons v vs ih => rw [writeSeq_cons, ih]; rfl

theorem writeSeq_producer (r : Ring α) (s : Nat) (items : List α) :
    (writeSeq r s items).1.producer = r.producer := by
  induction items generalizing r s with
  | nil => rfl
  | cons v vs ih => rw [writeSeq_cons, ih]; rfl

theorem writeSeq_consumer (r : Ring α) (s : Nat) (items : List α) :
    (writeSeq r s items).1.consumer = r.consumer := by
  induction items generalizing r s with
  | nil => rfl
  | cons v vs ih => rw [writeSeq_cons, ih]; rfl

theorem writeSeq_snd (r : Ring α) (s : Nat) (items : List α) (hs : s < U32MOD) :
    (writeSeq r s items).2 = (s + items.length) % U32MOD := by
  induction items generalizing r s with
  | nil => simp [Nat.mod_eq_of_lt hs]
  | cons v vs ih =>
      rw [writeSeq_cons, ih _ _ (wadd_lt s 1)]
      show ((s + 1) % U32MOD + vs.length) % U32MOD = _
      rw [Nat.mod_add_mod]
      simp only [List.length_cons]
      congr 1
      omega

theorem maskIdx_eq_mod (r : Ring α) {k : Nat} (hsz : r.size = 2 ^ k) (i : Nat) :
    r.maskIdx i = i % r.size := by
  simp [maskIdx, hsz, Nat.and_pow_two_sub_one_eq_mod]

/-- Slots not targetted by any write of a `writeSeq` keep their value. -/
theorem writeSeq_slots_other (r : Ring α) (s : Nat) (items : List α) {k : Nat}
    (hk : k ≤ 32) (hsz : r.size = 2 ^ k) (c : Nat)
    (hdist : ∀ j, j < items.length → (s + j) % 2 ^ k ≠ c) :
    (writeSeq r s items).1.slots c = r.slots c := by
  induction items generalizing r s with
  | nil => rfl
  | cons v vs ih =>
      rw [writeSeq_cons]
      rw [ih (r.writeAt s v) (wadd s 1) (by simpa using hsz) ?hdist]
      · show Function.update r.slots (r.maskIdx s) v c = r.slots c
        rw [Function.update_noteq]
        rw [maskIdx_eq_mod r hsz, hsz]
        have := hdist 0 (by simp)
        simpa using fun h => this h.symm
      case hdist =>
        intro j hj
        rw [show wadd s 1 = (s + 1) % U32MOD from rfl, mod_U32_add_mod_pow hk]
        have h := hdist (j + 1) (Nat.succ_lt_succ hj)
        have heq : s + 1 + j = s + (j + 1) := by omega
        rw [heq]
        exact h

/-- Reading back the `j`-th write of a `writeSeq` whose length fits the ring. -/
theorem writeSeq_slots_get (r : Ring α) (s : Nat) (items : List α) {k : Nat}
    (hk : k ≤ 32) (hsz : r.size = 2 ^ k) (hlen : items.length ≤ 2 ^ k)
    (j : Nat) (hj : j < items.length) (v₀ : α) :
    (writeSeq r s items).1.slots ((s + j) % 2 ^ k) = items.getD j v₀ := by
  induction items generalizing r s j with
  | nil => exact absurd hj (by simp)
  | cons v vs ih =>
      rw [writeSeq_cons]
      match j with
      | 0 =>
          rw [writeSeq_slots_other (r.writeAt s v) (wadd s 1) vs hk (by simpa using hsz)]
          · show Function.update r.slots (r.maskIdx s) v _ = _
            rw [maskIdx_eq_mod r hsz, hsz]
            simp
          · intro i hi
            rw [show wadd s 1 = (s + 1) % U32MOD from rfl, mod_U32_add_mod_pow hk]
            have h1 : 0 < 1 + i := by omega
            have h2 : 1 + i < 2 ^ k := by
              have : vs.length + 1 ≤ 2 ^ k := by simpa using hlen
              omega
            have := add_mod_ne_self s (1 + i) (2 ^ k) h1 h2
            simpa [Nat.add_assoc, Nat.add_comm 0 s] using this
      | j + 1 =>
          have hidx : (wadd s 1 + j) % 2 ^ k = (s + (j + 1)) % 2 ^ k := by
            rw [show wadd s 1 = (s + 1) % U32MOD from rfl, mod_U32_add_mod_pow hk]
            congr 1
            omega
          have := ih (r.writeAt s v) (wadd s 1) (by simpa using hsz)
            (le_trans (by simp) hlen) j (by simpa using Nat.lt_of_succ_lt_succ hj)
          rw [hidx] at this
          simpa using this

end Ring

/-- RX/TX descriptor `{addr: u64, len: u32, options: u32}`
(fluxnet-core/src/ring/desc.rs). -/
structure XDPDesc where
  addr : Nat
  len : Nat
  options : Nat
deriving DecidableEq, Repr

instance : Inhabited XDPDesc := ⟨⟨0, 0, 0⟩⟩

/-- The packet action variant (fluxcapacitor/src/packet/raw.rs). -/
inductive Action where
  | Drop
  | Tx
deriving DecidableEq, Repr

/-- UMEM layout (fluxcapacitor-core/src/umem/layout.rs).  The constructor
validates `frame_size.is_power_of_two() && frame_size ≥ 2048`; theorems carry
those facts as hypotheses where they matter. -/
structure UmemLayout where
  frame_size : Nat
  frame_count : Nat
deriving DecidableEq, Repr

namespace UmemLayout

/-- `size() = frame_size as usize * frame_count as usize` — exact for `u32`
operands on a 64-bit host. -/
def size (l : UmemLayout) : Nat := l.frame_size * l.frame_count

/-- `addr_to_idx`: `None` when `addr ≥ size()`, else
`Some((addr / frame_size) as u32)`; the `as u32` cast is `% 2^32`. -/
def addr_to_idx (l : UmemLayout) (addr : Nat) : Option Nat :=
  if l.size ≤ addr then none
  else some (addr / l.frame_size % U32MOD)

/-- `idx_to_addr`: `None` when `idx ≥ frame_count`, else
`Some(idx as u64 * frame_size as u64)` — a `u64` product of two `u32`s,
which cannot wrap. -/
def idx_to_addr (l : UmemLayout) (idx : Nat) : Option Nat :=
  if l.frame_count ≤ idx then none
  else some (idx * l.frame_size)

end UmemLayout

/-- C3: the claimed behaviour of `peek`, following the spec's words:
`min(max, producer − consumer)` under wrapping subtraction, but `0` whenever
the wrapping delta exceeds `2^31`. -/
def peekAsSpecified (max producer consumer : Nat) : Nat :=
  if 2 ^ 31 < wsub producer consumer then 0
  else min max (wsub producer consumer)

/-- A concrete consumer ring in the desynchronised state `producer = 0`,
`consumer = 1`, whose wrapping delta is `2^32 − 1 > 2^31`. -/
def c3ring : Ring Nat := ⟨4096, 0, 1, fun _ => 0⟩

/-- C3, counterexample: on the desync state `producer = 0, consumer = 1`
(wrapping delta `2^32 − 1`, far above `2^31`), `peek 5` returns `5`, not the
`0` the claim specifies. -/
theorem C3_counterexample :
    Ring.peek c3ring 5 = 5 ∧ peekAsSpecified 5 0 1 = 0 ∧ 2 ^ 31 < wsub 0 1 := by
  refine ⟨?_, ?_, ?_⟩ <;> decide

/-- C3, amended: `peek(max)` returns `min(max, producer − consumer)` computed
with `u32` wrapping subtraction — correct across index wrap-around — with no
desync clamp at `2^31`: a wrapping delta above `2^31` is capped at `max` like
any other value. -/
theorem C3_amended (r : Ring Nat) (max : Nat) :
    r.peek max = min max (wsub r.producer r.consumer) := by
  unfold Ring.peek
  rcases Nat.eq_zero_or_pos (wsub r.producer r.consumer) with h | h
  · simp [h]
  · rw [if_neg (by omega), Nat.min_comm]

/-- C9: the address/index maps of the UMEM layout are mutually inverse on
their domains; `size() = frame_size × frame_count`; `addr_to_idx addr`
succeeds with `addr / frame_size` exactly when `addr < size()`. -/
theorem C9_layout_inverse (l : UmemLayout) (i a b : Nat)
    (hfs : 0 < l.frame_size) (hfc : l.frame_count ≤ U32MOD)
    (hi : i < l.frame_count)
    (ha : a < l.size) (hal : l.frame_size ∣ a) :
    l.size = l.frame_size * l.frame_count
    ∧ (l.idx_to_addr i).bind l.addr_to_idx = some i
    ∧ (l.addr_to_idx a).bind l.idx_to_addr = some a
    ∧ (b < l.size → l.addr_to_idx b = some (b / l.frame_size))
    ∧ (l.size ≤ b → l.addr_to_idx b = none) := by
  refine ⟨rfl, ?_, ?_, ?_, ?_⟩
  · have hlt : i * l.frame_size < l.size := by
      rw [UmemLayout.size, Nat.mul_comm l.frame_size l.frame_count]
      exact (Nat.mul_lt_mul_right hfs).mpr hi
    rw [UmemLayout.idx_to_addr, if_neg (by omega)]
    rw [Option.some_bind, UmemLayout.addr_to_idx, if_neg (by omega)]
    rw [Nat.mul_div_cancel _ hfs, Nat.mod_eq_of_lt (lt_of_lt_of_le hi hfc)]
  · obtain ⟨q, hq⟩ := hal
    have hqlt : q < l.frame_count := by
      rw [hq, UmemLayout.size] at ha
      exact Nat.lt_of_mul_lt_mul_left ha
    rw [UmemLayout.addr_to_idx, if_neg (by omega)]
    rw [hq, Nat.mul_div_cancel_left _ hfs,
      Nat.mod_eq_of_lt (lt_of_lt_of_le hqlt hfc)]
    rw [Option.some_bind, UmemLayout.idx_to_addr, if_neg (by omega)]
    rw [Nat.mul_comm]
  · intro hb
    rw [UmemLayout.addr_to_idx, if_neg (by omega)]
    have hdiv : b / l.frame_size < l.frame_count := by
      rw [Nat.div_lt_iff_lt_mul hfs, Nat.mul_comm]
      exact hb
    rw [Nat.mod_eq_of_lt (lt_of_lt_of_le hdiv hfc)]
  · intro hb
    rw [UmemLayout.addr_to_idx, if_pos hb]

/-! ## The engine (fluxcapacitor/src/engine/runner.rs)

`FluxEngine` owns the four ring halves (through `FluxRaw`) and the two
reusable scratch buffers `descs_buf` / `actions_buf` of size `batch_size`.
`EngineState` collects exactly that mutable state.  The wakeup syscalls have
no effect on this state and are omitted. -/

structure EngineState where
  fill : Ring Nat
  comp : Ring Nat
  rx : Ring XDPDesc
  tx : Ring XDPDesc
  descs_buf : List XDPDesc
  actions_buf : List Action
  batch_size : Nat

/-- The `count` completed addresses read by step 1 of `process_batch`:
`comp.read_at(comp.consumer_idx() + i)` for `i in 0..count`.  The loop's
interleaved FILL writes do not touch the COMPLETION ring, and COMPLETION's
consumer index is only released after the loop, so the reads are
order-independent and can be collected up front. -/
def compAddrs (s : EngineState) (count : Nat) : List Nat :=
  (List.range count).map fun i => s.comp.readAt (wadd s.comp.consumerIdx i)

/-- Step 1 of `process_batch` (runner.rs lines 96–112): peek up to 32 on
COMPLETION; if non-zero, try to reserve that count on FILL; on success copy
the addresses over, submit FILL and release COMPLETION; on failure just
release COMPLETION. -/
def completionDrain (s : EngineState) : EngineState :=
  if 0 < s.comp.peek 32 then
    match s.fill.reserve (s.comp.peek 32) with
    | some producerIdx =>
        { s with
          fill := (Ring.writeSeq s.fill producerIdx (compAddrs s (s.comp.peek 32))).1.submit
                    (Ring.writeSeq s.fill producerIdx (compAddrs s (s.comp.peek 32))).2,
          comp := s.comp.release (s.comp.peek 32) }
    | none => { s with comp := s.comp.release (s.comp.peek 32) }
  else s

/-- The `count` RX descriptors drained by step 2:
`rx.read_at(rx.consumer_idx() + i)` for `i in 0..count` (RX's consumer is
released only after the loop). -/
def rxDescs (s : EngineState) (count : Nat) : List XDPDesc :=
  (List.range count).map fun i => s.rx.readAt (wadd s.rx.consumerIdx i)

/-- `tx_needed`: the number of actions equal to `Tx`. -/
def countTx (l : List Action) : Nat := (l.filter fun a => a == Action.Tx).length

/-- `fill_needed`: the number of actions equal to `Drop`. -/
def countDrop (l : List Action) : Nat := (l.filter fun a => a == Action.Drop).length

/-- The TX write loop of step 4: for each `(descriptor, action)` pair in
encounter order, if the action is `Tx` write the descriptor at the running
producer index and advance it. -/
def txPass (tx : Ring XDPDesc) (start : Nat) (pairs : List (XDPDesc × Action)) :
    Ring XDPDesc × Nat :=
  pairs.foldl
    (fun acc dp =>
      if dp.2 == Action.Tx then (acc.1.writeAt acc.2 dp.1, wadd acc.2 1) else acc)
    (tx, start)

/-- The FILL write loop of step 5: for each pair with action `Drop`, write the
descriptor's `addr` at the running producer index and advance it. -/
def fillPass (fill : Ring Nat) (start : Nat) (pairs : List (XDPDesc × Action)) :
    Ring Nat × Nat :=
  pairs.foldl
    (fun acc dp =>
      if dp.2 == Action.Drop then (acc.1.writeAt acc.2 dp.1.addr, wadd acc.2 1) else acc)
    (fill, start)

/-- Step 4 of `process_batch` (runner.rs lines 144–167): count the `Tx`
actions; if non-zero, reserve that count on TX — on success write the
`Tx`-marked descriptors in encounter order and submit; on failure (TX full)
rewrite every `Tx` action to `Drop`.  Returns the updated TX ring and the
post-step action slice. -/
def txStep (tx : Ring XDPDesc) (descs : List XDPDesc) (acts : List Action) :
    Ring XDPDesc × List Action :=
  if 0 < countTx acts then
    match tx.reserve (countTx acts) with
    | some p =>
        ((txPass tx p (descs.zip acts)).1.submit (txPass tx p (descs.zip acts)).2, acts)
    | none => (tx, acts.map fun a => if a == Action.Tx then Action.Drop else a)
  else (tx, acts)

/-- Step 5 of `process_batch` (runner.rs lines 169–184): count the `Drop`
actions; if non-zero, reserve that count on FILL — on success write each
dropped descriptor's `addr` in encounter order and submit; on failure leave
FILL untouched (the frames leak for this cycle). -/
def fillStep (fill : Ring Nat) (descs : List XDPDesc) (acts : List Action) :
    Ring Nat :=
  if 0 < countDrop acts then
    match fill.reserve (countDrop acts) with
    | some p =>
        (fillPass fill p (descs.zip acts)).1.submit (fillPass fill p (descs.zip acts)).2
    | none => fill
  else fill

/-- Steps 2–5 of `process_batch` on the post-completion-drain state `s`, in
the non-empty-RX case: drain `peek(batch_size)` descriptors into the scratch
buffers (actions reset to `Drop`), run the callback, commit TX, then recycle
to FILL.  The callback is modelled by its effect on the action slice: it
receives the drained descriptors (whose action slots were all reset to
`Drop`) and returns the action slice it leaves behind. -/
def commitPhase (s : EngineState) (cb : List XDPDesc → List Action) : EngineState :=
  { s with
    rx := s.rx.release (s.rx.peek s.batch_size),
    descs_buf := rxDescs s (s.rx.peek s.batch_size)
                  ++ s.descs_buf.drop (s.rx.peek s.batch_size),
    tx := (txStep s.tx (rxDescs s (s.rx.peek s.batch_size))
            (cb (rxDescs s (s.rx.peek s.batch_size)))).1,
    actions_buf := (txStep s.tx (rxDescs s (s.rx.peek s.batch_size))
                     (cb (rxDescs s (s.rx.peek s.batch_size)))).2
                    ++ s.actions_buf.drop (s.rx.peek s.batch_size),
    fill := fillStep s.fill (rxDescs s (s.rx.peek s.batch_size))
              ((txStep s.tx (rxDescs s (s.rx.peek s.batch_size))
                 (cb (rxDescs s (s.rx.peek s.batch_size)))).2) }

/-- `FluxEngine::process_batch`: completion drain, then — if RX is empty —
return 0 (the wake syscall has no state effect); otherwise the commit phase.
Returns the new state and the number of RX descriptors consumed. -/
def process_batch (cb : List XDPDesc → List Action) (s0 : EngineState) :
    EngineState × Nat :=
  if (completionDrain s0).rx.peek (completionDrain s0).batch_size = 0 then
    (completionDrain s0, 0)
  else
    (commitPhase (completionDrain s0) cb,
     (completionDrain s0).rx.peek (completionDrain s0).batch_size)

/-- The FILL-seeding step of `FluxEngine::with_config` (runner.rs lines
32–45): reserve `frame_count` slots on FILL; on success write the addresses
`(i * frame_size) as u64` (`u32` product) for `i in 0..frame_count` and
submit; on failure (`reserve` returned `None`) do nothing. -/
def seedFill (fill : Ring Nat) (frame_count frame_size : Nat) : Ring Nat :=
  match fill.reserve frame_count with
  | some prod =>
      (Ring.writeSeq fill prod
        ((List.range frame_count).map fun i => i * frame_size % U32MOD)).1.submit
        (Ring.writeSeq fill prod
          ((List.range frame_count).map fun i => i * frame_size % U32MOD)).2
  | none => fill

/-! ### Supporting lemmas about the engine's loops -/

theorem peek_le {α : Type} (r : Ring α) (count : Nat) : r.peek count ≤ count := by
  unfold Ring.peek
  split
  · exact Nat.zero_le _
  · exact Nat.min_le_right _ _

@[simp] theorem readAt_submit {α : Type} (r : Ring α) (x i : Nat) :
    (r.submit x).readAt i = r.readAt i := rfl

@[simp] theorem rxDescs_length (s : EngineState) (n : Nat) : (rxDescs s n).length = n := by
  simp [rxDescs]

@[simp] theorem compAddrs_length (s : EngineState) (n : Nat) : (compAddrs s n).length = n := by
  simp [compAddrs]

@[simp] theorem completionDrain_rx (s : EngineState) : (completionDrain s).rx = s.rx := by
  unfold completionDrain
  split
  · split <;> rfl
  · rfl

@[simp] theorem completionDrain_tx (s : EngineState) : (completionDrain s).tx = s.tx := by
  unfold completionDrain
  split
  · split <;> rfl
  · rfl

@[simp] theorem completionDrain_batch_size (s : EngineState) :
    (completionDrain s).batch_size = s.batch_size := by
  unfold completionDrain
  split
  · split <;> rfl
  · rfl

theorem completionDrain_fill_size (s : EngineState) :
    (completionDrain s).fill.size = s.fill.size := by
  unfold completionDrain
  split
  · split
    · simp [Ring.writeSeq_size]
    · rfl
  · rfl

@[simp] theorem txPass_nil (tx : Ring XDPDesc) (s : Nat) : txPass tx s [] = (tx, s) := rfl

theorem txPass_cons (tx : Ring XDPDesc) (s : Nat) (dp : XDPDesc × Action)
    (l : List (XDPDesc × Action)) :
    txPass tx s (dp :: l) =
      if dp.2 == Action.Tx then txPass (tx.writeAt s dp.1) (wadd s 1) l
      else txPass tx s l := by
  simp only [txPass, List.foldl_cons]
  by_cases h : dp.2 == Action.Tx <;> simp [h]

theorem fillPass_cons (fill : Ring Nat) (s : Nat) (dp : XDPDesc × Action)
    (l : List (XDPDesc × Action)) :
    fillPass fill s (dp :: l) =
      if dp.2 == Action.Drop then fillPass (fill.writeAt s dp.1.addr) (wadd s 1) l
      else fillPass fill s l := by
  simp only [fillPass, List.foldl_cons]
  by_cases h : dp.2 == Action.Drop <;> simp [h]

/-- The TX write loop writes exactly the `Tx`-marked descriptors, in
encounter order, at consecutive indices. -/
theorem txPass_eq_writeSeq (tx : Ring XDPDesc) (s : Nat)
    (pairs : List (XDPDesc × Action)) :
    txPass tx s pairs
      = Ring.writeSeq tx s ((pairs.filter fun dp => dp.2 == Action.Tx).map Prod.fst) := by
  induction pairs generalizing tx s with
  | nil => rfl
  | cons dp l ih =>
      rw [txPass_cons]
      by_cases h : dp.2 == Action.Tx
      · simp [h, List.filter_cons, ih]
      · simp [h, List.filter_cons, ih]

/-- The FILL write loop writes exactly the addresses of the `Drop`-marked
descriptors, in encounter order, at consecutive indices. -/
theorem fillPass_eq_writeSeq (fill : Ring Nat) (s : Nat)
    (pairs : List (XDPDesc × Action)) :
    fillPass fill s pairs
      = Ring.writeSeq fill s
          ((pairs.filter fun dp => dp.2 == Action.Drop).map fun dp => dp.1.addr) := by
  induction pairs generalizing fill s with
  | nil => rfl
  | cons dp l ih =>
      rw [fillPass_cons]
      by_cases h : dp.2 == Action.Drop
      · simp [h, List.filter_cons, ih]
      · simp [h, List.filter_cons, ih]

/-- Rewriting every `Tx` action to `Drop` leaves only `Drop` actions. -/
theorem rewriteTx_eq_replicate (l : List Action) :
    (l.map fun a => if a == Action.Tx then Action.Drop else a)
      = List.replicate l.length Action.Drop := by
  induction l with
  | nil => rfl
  | cons a l ih =>
      have hhead : (if a == Action.Tx then Action.Drop else a) = Action.Drop := by
        cases a <;> rfl
      rw [List.map_cons, hhead, ih, List.length_cons, List.replicate_succ]

theorem countTx_replicate (n : Nat) : countTx (List.replicate n Action.Drop) = 0 := by
  induction n with
  | zero => rfl
  | succ n ih => simp [countTx, List.replicate_succ, List.filter_cons]

theorem countDrop_replicate (n : Nat) : countDrop (List.replicate n Action.Drop) = n := by
  induction n with
  | zero => rfl
  | succ n ih => simp [countDrop, List.replicate_succ, List.filter_cons]

/-- With an all-`Drop` action slice, the FILL loop's write list is every
drained descriptor's address. -/
theorem zip_replicate_drop_filter (ds : List XDPDesc) :
    (((ds.zip (List.replicate ds.length Action.Drop)).filter
        fun dp => dp.2 == Action.Drop).map fun dp => dp.1.addr)
      = ds.map XDPDesc.addr := by
  induction ds with
  | nil => rfl
  | cons d l ih => simpa [List.replicate_succ, List.filter_cons] using ih

theorem getD_range_map {α : Type} (f : Nat → α) (n i : Nat) (hi : i < n) (d : α) :
    ((List.range n).map f).getD i d = f i := by
  have hlen : i < ((List.range n).map f).length := by simpa using hi
  rw [List.getD_eq_getElem?_getD, List.getElem?_eq_getElem hlen]
  simp

theorem getD_map_addr (l : List XDPDesc) (i : Nat) (hi : i < l.length) :
    (l.map XDPDesc.addr).getD i 0 = (l.getD i default).addr := by
  have h1 : i < (l.map XDPDesc.addr).length := by simpa using hi
  rw [List.getD_eq_getElem?_getD, List.getElem?_eq_getElem h1,
    List.getD_eq_getElem?_getD, List.getElem?_eq_getElem hi]
  simp

theorem reserve_some_eq_producer {α : Type} (r : Ring α) (c p : Nat)
    (h : r.reserve c = some p) : p = r.producer := by
  unfold Ring.reserve at h
  split at h
  · exact absurd h (by simp)
  · exact (Option.some.injEq _ _ ▸ h).symm

/-! ### C4 — FILL seeding at engine construction -/

/-- C4, amended: after construction the FILL ring contains the addresses
`i × frame_size` for `i ∈ [0, frame_count)` in increasing slot order —
provided the single `reserve(frame_count)` succeeds.  When FILL cannot accept
all `frame_count` addresses the engine seeds NONE of them (the reserve is
all-or-nothing and the failure branch does not write or submit anything),
not "as many as fit". -/
theorem C4_seeding (fill : Ring Nat) (frame_count frame_size p i k : Nat)
    (hk : k ≤ 32) (hsz : fill.size = 2 ^ k)
    (hprod : fill.producer < U32MOD)
    (hcle : frame_count ≤ fill.size)
    (hfs : 0 < frame_size)
    (hnov : frame_count * frame_size ≤ U32MOD)
    (hi : i < frame_count) :
    (fill.reserve frame_count = some p →
      (seedFill fill frame_count frame_size).producer = wadd p frame_count
      ∧ (seedFill fill frame_count frame_size).readAt (p + i) = i * frame_size)
    ∧ (fill.reserve frame_count = none →
      seedFill fill frame_count frame_size = fill) := by
  constructor
  · intro hres
    have hp : p = fill.producer := reserve_some_eq_producer fill frame_count p hres
    have hplt : p < U32MOD := hp ▸ hprod
    have hlen : ((List.range frame_count).map fun j => j * frame_size % U32MOD).length
        = frame_count := by simp
    constructor
    · simp only [seedFill, hres, Ring.submit_producer]
      rw [Ring.writeSeq_snd _ _ _ hplt, hlen, Nat.mod_mod_of_dvd _ dvd_rfl]
      rfl
    · simp only [seedFill, hres, readAt_submit]
      have hszw : (Ring.writeSeq fill p
          ((List.range frame_count).map fun j => j * frame_size % U32MOD)).1.size
          = 2 ^ k := by rw [Ring.writeSeq_size, hsz]
      rw [Ring.readAt, Ring.maskIdx_eq_mod _ hszw, Ring.writeSeq_size, hsz]
      rw [Ring.writeSeq_slots_get fill p _ hk hsz (by rw [hlen, ← hsz]; exact hcle) i
        (by rw [hlen]; exact hi) 0]
      rw [getD_range_map _ _ _ hi]
      have hlt : i * frame_size < U32MOD := by
        have h1 : i * frame_size < frame_count * frame_size :=
          (Nat.mul_lt_mul_right hfs).mpr hi
        omega
      exact Nat.mod_eq_of_lt hlt
  · intro hres
    simp only [seedFill, hres]

/-- A FILL ring of size 2 with room for 2 addresses. -/
def c4smallring : Ring Nat := ⟨2, 0, 0, fun _ => 0⟩

/-- C4, counterexample: seeding `frame_count = 4` frames into a FILL ring
with only 2 free slots seeds none of them — the producer index stays 0 and
the ring is untouched — although 2 addresses would fit.  This refutes "the
engine still seeds as many as fit". -/
theorem C4_counterexample :
    Ring.available c4smallring = 2 ∧ (2 : Nat) < 4
    ∧ seedFill c4smallring 4 2048 = c4smallring
    ∧ (seedFill c4smallring 4 2048).producer = 0 := by
  exact ⟨by decide, by decide, rfl, rfl⟩

/-- A FILL ring of size 4 with room for all 4 addresses. -/
def c4fillring : Ring Nat := ⟨4, 0, 0, fun _ => 0⟩

/-- C4, witness: a ring of size 4, `frame_count = 4`, `frame_size = 2048`;
the reserve succeeds at producer 0 and slot 1 reads back `1 × 2048`. -/
theorem C4_seeding_witness :
    (Ring.reserve c4fillring 4 = some 0 →
      (seedFill c4fillring 4 2048).producer = wadd 0 4
      ∧ (seedFill c4fillring 4 2048).readAt (0 + 1) = 1 * 2048)
    ∧ (Ring.reserve c4fillring 4 = none → seedFill c4fillring 4 2048 = c4fillring) :=
  C4_seeding c4fillring 4 2048 0 1 2 (by decide) (by decide) (by decide)
    (by decide) (by decide) (by decide) (by decide)

/-! ### C5 — the completion-drain step of `process_batch` -/

/-- C5: the completion drain peeks at most 32 COMPLETION entries and releases
exactly that many whether or not the FILL reserve succeeds; when the FILL
reserve of the same count succeeds the completed addresses are copied onto
FILL in order and submitted, and when it fails the COMPLETION slots are
released anyway and FILL is untouched. -/
theorem C5_completion_drain (s : EngineState) (p i k : Nat)
    (hcons : s.comp.consumer < U32MOD)
    (hprod : s.fill.producer < U32MOD)
    (hk : k ≤ 32) (hsz : s.fill.size = 2 ^ k)
    (hcle : s.comp.peek 32 ≤ s.fill.size) :
    s.comp.peek 32 ≤ 32
    ∧ (completionDrain s).comp.consumer = wadd s.comp.consumer (s.comp.peek 32)
    ∧ (s.fill.reserve (s.comp.peek 32) = some p →
        (completionDrain s).fill.producer = wadd p (s.comp.peek 32)
        ∧ (i < s.comp.peek 32 →
            (completionDrain s).fill.readAt (p + i)
              = s.comp.readAt (wadd s.comp.consumer i)))
    ∧ (s.fill.reserve (s.comp.peek 32) = none →
        (completionDrain s).fill = s.fill) := by
  refine ⟨peek_le s.comp 32, ?_, ?_, ?_⟩
  · by_cases hc : 0 < s.comp.peek 32
    · unfold completionDrain
      rw [if_pos hc]
      cases hres : s.fill.reserve (s.comp.peek 32) <;> simp
    · have hc0 : s.comp.peek 32 = 0 := by omega
      unfold completionDrain
      rw [if_neg hc, hc0, wadd_zero _ hcons]
  · intro hres
    have hp : p = s.fill.producer := reserve_some_eq_producer _ _ _ hres
    have hplt : p < U32MOD := hp ▸ hprod
    by_cases hc : 0 < s.comp.peek 32
    · have hdone : (completionDrain s).fill
          = (Ring.writeSeq s.fill p (compAddrs s (s.comp.peek 32))).1.submit
              (Ring.writeSeq s.fill p (compAddrs s (s.comp.peek 32))).2 := by
        unfold completionDrain
        rw [if_pos hc, hres]
      constructor
      · rw [hdone, Ring.submit_producer,
          Ring.writeSeq_snd _ _ _ hplt, compAddrs_length, Nat.mod_mod_of_dvd _ dvd_rfl]
        rfl
      · intro hic
        rw [hdone, readAt_submit]
        have hszw : (Ring.writeSeq s.fill p (compAddrs s (s.comp.peek 32))).1.size
            = 2 ^ k := by rw [Ring.writeSeq_size, hsz]
        rw [Ring.readAt, Ring.maskIdx_eq_mod _ hszw, Ring.writeSeq_size, hsz]
        rw [Ring.writeSeq_slots_get s.fill p _ hk hsz
          (by rw [compAddrs_length, ← hsz]; exact hcle) i
          (by rw [compAddrs_length]; exact hic) 0]
        rw [compAddrs, getD_range_map _ _ _ hic]
        rfl
    · have hc0 : s.comp.peek 32 = 0 := by omega
      have hdone : completionDrain s = s := by
        unfold completionDrain
        rw [if_neg hc]
      rw [hdone, hc0, wadd_zero p hplt, hp]
      exact ⟨rfl, by omega⟩
  · intro hres
    by_cases hc : 0 < s.comp.peek 32
    · unfold completionDrain
      rw [if_pos hc, hres]
    · unfold completionDrain
      rw [if_neg hc]

/-- A concrete engine state: two completed addresses on COMPLETION
(slots all hold address 100), an empty FILL ring of size 4. -/
def c5state : EngineState :=
  { fill := ⟨4, 0, 0, fun _ => 0⟩
    comp := ⟨4, 2, 0, fun _ => 100⟩
    rx := ⟨1, 0, 0, fun _ => ⟨0, 0, 0⟩⟩
    tx := ⟨1, 0, 0, fun _ => ⟨0, 0, 0⟩⟩
    descs_buf := []
    actions_buf := []
    batch_size := 1 }

/-- C5, witness: on `c5state` the drain peeks 2, reserves 2 on FILL at
producer 0, copies both addresses and releases COMPLETION by 2. -/
theorem C5_completion_drain_witness :
    c5state.comp.peek 32 ≤ 32
    ∧ (completionDrain c5state).comp.consumer
        = wadd c5state.comp.consumer (c5state.comp.peek 32)
    ∧ (c5state.fill.reserve (c5state.comp.peek 32) = some 0 →
        (completionDrain c5state).fill.producer = wadd 0 (c5state.comp.peek 32)
        ∧ (1 < c5state.comp.peek 32 →
            (completionDrain c5state).fill.readAt (0 + 1)
              = c5state.comp.readAt (wadd c5state.comp.consumer 1)))
    ∧ (c5state.fill.reserve (c5state.comp.peek 32) = none →
        (completionDrain c5state).fill = c5state.fill) :=
  C5_completion_drain c5state 0 1 2 (by decide) (by decide) (by decide)
    (by decide) (by decide)

/-! ### C1 / C7 — the commit phase of `process_batch` -/

theorem rxDescs_completionDrain (s : EngineState) (n : Nat) :
    rxDescs (completionDrain s) n = rxDescs s n := by
  unfold rxDescs
  rw [completionDrain_rx]

/-- When the TX reserve for the intended count fails, `txStep` leaves the TX
ring untouched and rewrites the whole action slice to `Drop`. -/
theorem txStep_fail (tx : Ring XDPDesc) (descs : List XDPDesc) (acts : List Action)
    (htx0 : 0 < countTx acts) (hres : tx.reserve (countTx acts) = none) :
    txStep tx descs acts = (tx, List.replicate acts.length Action.Drop) := by
  unfold txStep
  rw [if_pos htx0, hres]
  show (tx, acts.map fun a => if a == Action.Tx then Action.Drop else a) = _
  rw [rewriteTx_eq_replicate]

/-- With no `Tx` action, `txStep` does nothing at all to the TX ring. -/
theorem txStep_noop (tx : Ring XDPDesc) (descs : List XDPDesc) (n : Nat) :
    txStep tx descs (List.replicate n Action.Drop)
      = (tx, List.replicate n Action.Drop) := by
  unfold txStep
  rw [countTx_replicate, if_neg (by omega)]

/-- With an all-`Drop` action slice whose FILL reserve succeeds, the recycle
step writes every descriptor's address in order and submits. -/
theorem fillStep_all_drop (fill : Ring Nat) (descs : List XDPDesc) (n p i k : Nat)
    (hlen : descs.length = n) (hn0 : 0 < n)
    (hk : k ≤ 32) (hsz : fill.size = 2 ^ k) (hnle : n ≤ fill.size)
    (hprod : fill.producer < U32MOD)
    (hres : fill.reserve n = some p) :
    (fillStep fill descs (List.replicate n Action.Drop)).producer = wadd p n
    ∧ (i < n →
        (fillStep fill descs (List.replicate n Action.Drop)).readAt (p + i)
          = (descs.getD i default).addr) := by
  have hp : p = fill.producer := reserve_some_eq_producer _ _ _ hres
  have hplt : p < U32MOD := hp ▸ hprod
  have hfp : fillPass fill p (descs.zip (List.replicate n Action.Drop))
      = Ring.writeSeq fill p (descs.map XDPDesc.addr) := by
    rw [fillPass_eq_writeSeq, ← hlen, zip_replicate_drop_filter]
  have hfs2 : fillStep fill descs (List.replicate n Action.Drop)
      = (Ring.writeSeq fill p (descs.map XDPDesc.addr)).1.submit
          (Ring.writeSeq fill p (descs.map XDPDesc.addr)).2 := by
    unfold fillStep
    rw [countDrop_replicate, if_pos hn0, hres]
    show (fillPass fill p (descs.zip (List.replicate n Action.Drop))).1.submit
        (fillPass fill p (descs.zip (List.replicate n Action.Drop))).2 = _
    rw [hfp]
  constructor
  · rw [hfs2, Ring.submit_producer, Ring.writeSeq_snd _ _ _ hplt,
      List.length_map, hlen, Nat.mod_mod_of_dvd _ dvd_rfl]
    rfl
  · intro hi
    rw [hfs2, readAt_submit]
    have hszw : (Ring.writeSeq fill p (descs.map XDPDesc.addr)).1.size = 2 ^ k := by
      rw [Ring.writeSeq_size, hsz]
    rw [Ring.readAt, Ring.maskIdx_eq_mod _ hszw, Ring.writeSeq_size, hsz]
    rw [Ring.writeSeq_slots_get fill p _ hk hsz
      (by rw [List.length_map, hlen, ← hsz]; exact hnle) i
      (by rw [List.length_map, hlen]; exact hi) 0]
    exact getD_map_addr descs i (by rw [hlen]; exact hi)

/-- The engine callback that sets no actions: it leaves the action slice as
initialised — all `Drop`. -/
def noopCallback : List XDPDesc → List Action :=
  fun ds => List.replicate ds.length Action.Drop

/-- An engine callback that marks every packet for transmission. -/
def allTxCallback : List XDPDesc → List Action :=
  fun ds => List.replicate ds.length Action.Tx

/-- C7 (amended): with a callback that sets no actions, every packet's action
stays at its `Drop` default: nothing at all is written to the TX ring, and —
provided the FILL reserve for the batch count succeeds — every drained RX
descriptor's address is written to FILL and submitted in the same cycle. -/
theorem C7_drop_default (s0 : EngineState) (n p i k : Nat)
    (hn : n = s0.rx.peek s0.batch_size) (hn0 : 0 < n)
    (hk : k ≤ 32) (hsz : s0.fill.size = 2 ^ k) (hnle : n ≤ s0.fill.size)
    (hfprod : (completionDrain s0).fill.producer < U32MOD)
    (hres : (completionDrain s0).fill.reserve n = some p) :
    (process_batch noopCallback s0).2 = n
    ∧ (process_batch noopCallback s0).1.tx = s0.tx
    ∧ (process_batch noopCallback s0).1.rx.consumer = wadd s0.rx.consumer n
    ∧ (process_batch noopCallback s0).1.fill.producer = wadd p n
    ∧ (i < n →
        (process_batch noopCallback s0).1.fill.readAt (p + i)
          = ((rxDescs s0 n).getD i default).addr) := by
  have hpeek : (completionDrain s0).rx.peek (completionDrain s0).batch_size = n := by
    rw [completionDrain_rx, completionDrain_batch_size, hn]
  have hproc : process_batch noopCallback s0
      = (commitPhase (completionDrain s0) noopCallback, n) := by
    unfold process_batch
    rw [hpeek, if_neg (by omega)]
  have hacts : noopCallback (rxDescs (completionDrain s0) n)
      = List.replicate n Action.Drop := by
    unfold noopCallback
    rw [rxDescs_length]
  have htx : txStep (completionDrain s0).tx (rxDescs (completionDrain s0) n)
      (noopCallback (rxDescs (completionDrain s0) n))
      = ((completionDrain s0).tx, List.replicate n Action.Drop) := by
    rw [hacts]
    exact txStep_noop _ _ n
  have hfill := fillStep_all_drop (completionDrain s0).fill
    (rxDescs (completionDrain s0) n) n p i k (rxDescs_length _ _) hn0 hk
    (by rw [completionDrain_fill_size]; exact hsz)
    (by rw [completionDrain_fill_size]; exact hnle) hfprod hres
  refine ⟨by rw [hproc], ?_, ?_, ?_, ?_⟩
  · rw [hproc]
    show (commitPhase (completionDrain s0) noopCallback).tx = s0.tx
    unfold commitPhase
    simp only [hpeek]
    rw [htx]
    exact completionDrain_tx s0
  · rw [hproc]
    show (commitPhase (completionDrain s0) noopCallback).rx.consumer = _
    unfold commitPhase
    simp only [hpeek]
    rw [Ring.release_consumer, completionDrain_rx]
  · rw [hproc]
    show (commitPhase (completionDrain s0) noopCallback).fill.producer = _
    unfold commitPhase
    simp only [hpeek]
    rw [htx]
    exact hfill.1
  · intro hi
    rw [hproc]
    show (commitPhase (completionDrain s0) noopCallback).fill.readAt (p + i) = _
    unfold commitPhase
    simp only [hpeek]
    rw [htx]
    rw [← rxDescs_completionDrain s0 n]
    exact hfill.2 hi

/-- An engine state with one pending RX descriptor and a FULL FILL ring
(size 1, producer 1, consumer 0) — the recycle reserve must fail. -/
def c7xstate : EngineState :=
  { fill := ⟨1, 1, 0, fun _ => 0⟩
    comp := ⟨1, 0, 0, fun _ => 0⟩
    rx := ⟨1, 1, 0, fun _ => ⟨0, 64, 0⟩⟩
    tx := ⟨1, 0, 0, fun _ => ⟨0, 0, 0⟩⟩
    descs_buf := [⟨0, 0, 0⟩]
    actions_buf := [Action.Drop]
    batch_size := 1 }

/-- C7, counterexample: on `c7xstate` a do-nothing callback drains one RX
descriptor, but because the FILL ring is full the reserve fails and the
address is NOT written to FILL nor submitted — the FILL ring is unchanged,
refuting the unconditional "is written to the FILL ring and submitted in
that same cycle". -/
theorem C7_counterexample :
    (process_batch noopCallback c7xstate).2 = 1
    ∧ Ring.reserve c7xstate.fill 1 = none
    ∧ (process_batch noopCallback c7xstate).1.fill.producer = c7xstate.fill.producer
    ∧ (process_batch noopCallback c7xstate).1.fill = c7xstate.fill :=
  ⟨rfl, by decide, rfl, rfl⟩

/-- An engine state with one pending RX descriptor (addr 4096) and an empty
FILL ring of size 4. -/
def c7wstate : EngineState :=
  { fill := ⟨4, 0, 0, fun _ => 0⟩
    comp := ⟨1, 0, 0, fun _ => 0⟩
    rx := ⟨1, 1, 0, fun _ => ⟨4096, 64, 0⟩⟩
    tx := ⟨1, 0, 0, fun _ => ⟨0, 0, 0⟩⟩
    descs_buf := [⟨0, 0, 0⟩]
    actions_buf := [Action.Drop]
    batch_size := 1 }

/-- C7, witness: on `c7wstate` the do-nothing callback recycles the drained
descriptor's address 4096 to FILL slot 0 and touches TX not at all. -/
theorem C7_drop_default_witness :
    (process_batch noopCallback c7wstate).2 = 1
    ∧ (process_batch noopCallback c7wstate).1.tx = c7wstate.tx
    ∧ (process_batch noopCallback c7wstate).1.rx.consumer = wadd c7wstate.rx.consumer 1
    ∧ (process_batch noopCallback c7wstate).1.fill.producer = wadd 0 1
    ∧ (0 < 1 →
        (process_batch noopCallback c7wstate).1.fill.readAt (0 + 0)
          = ((rxDescs c7wstate 1).getD 0 default).addr) :=
  C7_drop_default c7wstate 1 0 0 2 (by decide) (by decide) (by decide) (by decide)
    (by decide) (by decide) (by decide)

/-- C1 (amended): when the callback marks at least one packet `Tx` and the
TX reserve for the full intended count fails, the engine transmits none of
them — the TX ring (producer index included) is unchanged and every `Tx`
action is rewritten to `Drop` — and, provided the FILL reserve for the batch
count succeeds, all the packets' addresses are submitted to the FILL ring in
the same cycle.  (If the FILL reserve also fails, the addresses are deferred
— not written anywhere — for this cycle; there is still never a partial
transmit.) -/
theorem C1_no_partial_tx (s0 : EngineState) (cb : List XDPDesc → List Action)
    (n p i k : Nat)
    (hn : n = s0.rx.peek s0.batch_size) (hn0 : 0 < n)
    (hlen : (cb (rxDescs s0 n)).length = n)
    (htx0 : 0 < countTx (cb (rxDescs s0 n)))
    (htxfail : s0.tx.reserve (countTx (cb (rxDescs s0 n))) = none)
    (hk : k ≤ 32) (hsz : s0.fill.size = 2 ^ k) (hnle : n ≤ s0.fill.size)
    (hfprod : (completionDrain s0).fill.producer < U32MOD) :
    (process_batch cb s0).1.tx = s0.tx
    ∧ (process_batch cb s0).1.actions_buf.take n = List.replicate n Action.Drop
    ∧ ((completionDrain s0).fill.reserve n = some p →
        (process_batch cb s0).1.fill.producer = wadd p n
        ∧ (i < n →
            (process_batch cb s0).1.fill.readAt (p + i)
              = ((rxDescs s0 n).getD i default).addr)) := by
  have hpeek : (completionDrain s0).rx.peek (completionDrain s0).batch_size = n := by
    rw [completionDrain_rx, completionDrain_batch_size, hn]
  have hproc : process_batch cb s0 = (commitPhase (completionDrain s0) cb, n) := by
    unfold process_batch
    rw [hpeek, if_neg (by omega)]
  have hdrx : rxDescs (completionDrain s0) n = rxDescs s0 n :=
    rxDescs_completionDrain s0 n
  have htx : txStep (completionDrain s0).tx (rxDescs (completionDrain s0) n)
      (cb (rxDescs (completionDrain s0) n))
      = ((completionDrain s0).tx, List.replicate n Action.Drop) := by
    rw [hdrx]
    rw [txStep_fail (completionDrain s0).tx (rxDescs s0 n) (cb (rxDescs s0 n)) htx0
      (by rw [completionDrain_tx]; exact htxfail), hlen]
  refine ⟨?_, ?_, ?_⟩
  · rw [hproc]
    show (commitPhase (completionDrain s0) cb).tx = s0.tx
    unfold commitPhase
    simp only [hpeek]
    rw [htx]
    exact completionDrain_tx s0
  · rw [hproc]
    show ((commitPhase (completionDrain s0) cb).actions_buf).take n = _
    unfold commitPhase
    simp only [hpeek]
    rw [htx]
    exact List.take_left' (by simp)
  · intro hres
    have hfill := fillStep_all_drop (completionDrain s0).fill
      (rxDescs (completionDrain s0) n) n p i k (rxDescs_length _ _) hn0 hk
      (by rw [completionDrain_fill_size]; exact hsz)
      (by rw [completionDrain_fill_size]; exact hnle) hfprod hres
    constructor
    · rw [hproc]
      show (commitPhase (completionDrain s0) cb).fill.producer = _
      unfold commitPhase
      simp only [hpeek]
      rw [htx]
      exact hfill.1
    · intro hi
      rw [hproc]
      show (commitPhase (completionDrain s0) cb).fill.readAt (p + i) = _
      unfold commitPhase
      simp only [hpeek]
      rw [htx, ← hdrx]
      exact hfill.2 hi

/-- An engine state with one pending RX descriptor and BOTH the TX ring and
the FILL ring full (each size 1, producer 1, consumer 0). -/
def c1state : EngineState :=
  { fill := ⟨1, 1, 0, fun _ => 0⟩
    comp := ⟨1, 0, 0, fun _ => 0⟩
    rx := ⟨1, 1, 0, fun _ => ⟨0, 64, 0⟩⟩
    tx := ⟨1, 1, 0, fun _ => ⟨0, 0, 0⟩⟩
    descs_buf := [⟨0, 0, 0⟩]
    actions_buf := [Action.Drop]
    batch_size := 1 }

/-- C1, counterexample: on `c1state` the callback marks the one packet `Tx`;
the TX reserve fails (TX full) and the action is rewritten to `Drop`, but the
FILL ring is also full, so the packet's address is NOT submitted to FILL in
this cycle — FILL is unchanged.  This refutes the unconditional "all those
packets' addresses are submitted to the FILL ring in the same cycle". -/
theorem C1_counterexample :
    Ring.reserve c1state.tx 1 = none
    ∧ countTx (allTxCallback (rxDescs c1state 1)) = 1
    ∧ (process_batch allTxCallback c1state).1.actions_buf = [Action.Drop]
    ∧ (process_batch allTxCallback c1state).1.tx = c1state.tx
    ∧ (process_batch allTxCallback c1state).1.fill = c1state.fill :=
  ⟨by decide, by decide, by decide, rfl, rfl⟩

/-- An engine state with one pending RX descriptor (addr 8192), a full TX
ring (size 1) and an empty FILL ring of size 4. -/
def c1wstate : EngineState :=
  { fill := ⟨4, 0, 0, fun _ => 0⟩
    comp := ⟨1, 0, 0, fun _ => 0⟩
    rx := ⟨1, 1, 0, fun _ => ⟨8192, 64, 0⟩⟩
    tx := ⟨1, 1, 0, fun _ => ⟨0, 0, 0⟩⟩
    descs_buf := [⟨0, 0, 0⟩]
    actions_buf := [Action.Drop]
    batch_size := 1 }

/-- C1, witness: on `c1wstate` the all-`Tx` callback hits a full TX ring; the
whole intended TX set is dropped, and FILL (which has room) receives the
packet's address 8192. -/
theorem C1_no_partial_tx_witness :
    (process_batch allTxCallback c1wstate).1.tx = c1wstate.tx
    ∧ (process_batch allTxCallback c1wstate).1.actions_buf.take 1
        = List.replicate 1 Action.Drop
    ∧ ((completionDrain c1wstate).fill.reserve 1 = some 0 →
        (process_batch allTxCallback c1wstate).1.fill.producer = wadd 0 1
        ∧ (0 < 1 →
            (process_batch allTxCallback c1wstate).1.fill.readAt (0 + 0)
              = ((rxDescs c1wstate 1).getD 0 default).addr)) :=
  C1_no_partial_tx c1wstate allTxCallback 1 0 0 2 (by decide) (by decide) (by decide)
    (by decide) (by decide) (by decide) (by decide) (by decide) (by decide)

/-! ### C6 — the split TX half (fluxcapacitor/src/system/tx.rs) -/

/-- An owned packet handle: UMEM address and length.  (Its `Drop` impl —
fluxnet/src/packet/owned.rs — pushes `addr` onto the shared free-frame
queue.) -/
structure Packet where
  addr : Nat
  len : Nat
deriving DecidableEq, Repr

/-- The state owned by (or reachable from) the TX half: the TX ring, the
COMPLETION ring, and the shared free-frame queue (a lock-free queue of `u64`
addresses; `push` appends). -/
structure TxHalfState where
  tx : Ring XDPDesc
  comp : Ring Nat
  free_frames : List Nat

/-- `FluxTx::reclaim`: peek up to 32 on COMPLETION; read — and discard — the
completed addresses (the known split-mode deficiency), then release that many
slots.  With no entries nothing happens. -/
def reclaim (s : TxHalfState) : TxHalfState :=
  if 0 < s.comp.peek 32 then { s with comp := s.comp.release (s.comp.peek 32) } else s

/-- `FluxTx::send`, with the packet destructor of
`impl Drop for Packet` (fluxnet/src/packet/owned.rs): reclaim first, then
reserve one TX slot.  On success write `{addr, len as u32, options: 0}`,
submit `idx + 1`, and `mem::forget` the packet — the free-frame queue is
untouched.  On failure `drop(packet)` runs the destructor, which pushes
`addr` onto the free-frame queue. -/
def send (s : TxHalfState) (pkt : Packet) : TxHalfState :=
  match (reclaim s).tx.reserve 1 with
  | some idx =>
      { reclaim s with
        tx := ((reclaim s).tx.writeAt idx ⟨pkt.addr, pkt.len % U32MOD, 0⟩).submit
                (wadd idx 1) }
  | none => { reclaim s with free_frames := (reclaim s).free_frames ++ [pkt.addr] }

@[simp] theorem reclaim_tx (s : TxHalfState) : (reclaim s).tx = s.tx := by
  unfold reclaim
  split <;> rfl

@[simp] theorem reclaim_free_frames (s : TxHalfState) :
    (reclaim s).free_frames = s.free_frames := by
  unfold reclaim
  split <;> rfl

theorem reclaim_comp_consumer (s : TxHalfState) (hcons : s.comp.consumer < U32MOD) :
    (reclaim s).comp.consumer = wadd s.comp.consumer (s.comp.peek 32) := by
  unfold reclaim
  split
  · rfl
  · have h0 : s.comp.peek 32 = 0 := by omega
    rw [h0, wadd_zero _ hcons]

theorem send_comp (s : TxHalfState) (pkt : Packet) :
    (send s pkt).comp = (reclaim s).comp := by
  unfold send
  cases hr : (reclaim s).tx.reserve 1 <;> rfl

theorem readAt_writeAt_same {α : Type} (r : Ring α) (idx : Nat) (v : α) :
    (r.writeAt idx v).readAt idx = v := by
  unfold Ring.readAt Ring.writeAt Ring.maskIdx
  simp

/-- C6: `send` first drains up to 32 COMPLETION entries, then reserves
exactly one TX slot.  On success it writes `{addr: pkt.addr, len: pkt.len,
options: 0}`, submits `producer + 1`, and suppresses the packet's destructor
(the free-frame queue is unchanged); on failure the packet is dropped, which
enqueues its address onto the free-frame queue. -/
theorem C6_tx_send (s : TxHalfState) (pkt : Packet) (idx : Nat)
    (hcons : s.comp.consumer < U32MOD)
    (hlen : pkt.len < U32MOD) :
    s.comp.peek 32 ≤ 32
    ∧ (send s pkt).comp.consumer = wadd s.comp.consumer (s.comp.peek 32)
    ∧ (s.tx.reserve 1 = some idx →
        (send s pkt).tx.readAt idx = ⟨pkt.addr, pkt.len, 0⟩
        ∧ (send s pkt).tx.producer = wadd idx 1
        ∧ (send s pkt).free_frames = s.free_frames)
    ∧ (s.tx.reserve 1 = none →
        (send s pkt).tx = s.tx
        ∧ (send s pkt).free_frames = s.free_frames ++ [pkt.addr]) := by
  refine ⟨peek_le s.comp 32, ?_, ?_, ?_⟩
  · rw [send_comp, reclaim_comp_consumer s hcons]
  · intro hr
    have hr2 : (reclaim s).tx.reserve 1 = some idx := by rw [reclaim_tx]; exact hr
    have hsend : send s pkt
        = { reclaim s with
            tx := ((reclaim s).tx.writeAt idx ⟨pkt.addr, pkt.len % U32MOD, 0⟩).submit
                    (wadd idx 1) } := by
      unfold send
      rw [hr2]
    refine ⟨?_, ?_, ?_⟩
    · rw [hsend]
      show (((reclaim s).tx.writeAt idx ⟨pkt.addr, pkt.len % U32MOD, 0⟩).submit
        (wadd idx 1)).readAt idx = _
      rw [readAt_submit, readAt_writeAt_same, Nat.mod_eq_of_lt hlen]
    · rw [hsend]
      show (((reclaim s).tx.writeAt idx _).submit (wadd idx 1)).producer = _
      rw [Ring.submit_producer, Nat.mod_eq_of_lt (wadd_lt idx 1)]
    · rw [hsend]
      show (reclaim s).free_frames = s.free_frames
      exact reclaim_free_frames s
  · intro hr
    have hr2 : (reclaim s).tx.reserve 1 = none := by rw [reclaim_tx]; exact hr
    have hsend : send s pkt
        = { reclaim s with
            free_frames := (reclaim s).free_frames ++ [pkt.addr] } := by
      unfold send
      rw [hr2]
    constructor
    · rw [hsend]
      show (reclaim s).tx = s.tx
      exact reclaim_tx s
    · rw [hsend]
      show (reclaim s).free_frames ++ [pkt.addr] = _
      rw [reclaim_free_frames]

/-- A TX-half state with one completed entry on COMPLETION and an empty TX
ring of size 2. -/
def c6state : TxHalfState :=
  { tx := ⟨2, 0, 0, fun _ => ⟨0, 0, 0⟩⟩
    comp := ⟨2, 1, 0, fun _ => 50⟩
    free_frames := [] }

/-- C6, witness: sending `{addr := 2048, len := 64}` on `c6state` drains one
COMPLETION entry, reserves TX slot 0, writes the descriptor and submits 1. -/
theorem C6_tx_send_witness :
    c6state.comp.peek 32 ≤ 32
    ∧ (send c6state ⟨2048, 64⟩).comp.consumer
        = wadd c6state.comp.consumer (c6state.comp.peek 32)
    ∧ (c6state.tx.reserve 1 = some 0 →
        (send c6state ⟨2048, 64⟩).tx.readAt 0 = ⟨2048, 64, 0⟩
        ∧ (send c6state ⟨2048, 64⟩).tx.producer = wadd 0 1
        ∧ (send c6state ⟨2048, 64⟩).free_frames = c6state.free_frames)
    ∧ (c6state.tx.reserve 1 = none →
        (send c6state ⟨2048, 64⟩).tx = c6state.tx
        ∧ (send c6state ⟨2048, 64⟩).free_frames
            = c6state.free_frames ++ [2048]) :=
  C6_tx_send c6state ⟨2048, 64⟩ 0 (by decide) (by decide)

/-! ### C2 / C8 — the borrowed packet view -/

/-- A `PacketRef` (fluxcapacitor/src/packet/raw.rs and the fluxnet twin):
the start pointer is modelled as a signed byte offset from the UMEM base
(`ptr = base + ptrOff`), plus the view length and the frame address. -/
structure PacketRefModel where
  ptrOff : Int
  len : Nat
  addr : Nat
deriving DecidableEq, Repr

/-- `BatchIterator::next` (fluxnet/src/engine/batch.rs lines 40–68): for the
current index it takes the descriptor, computes `ptr = base + desc.addr`
(unchecked `add`) and hands out
`PacketRef::new(ptr, desc.len, desc.addr, action)`.  The UMEM size is never
consulted — there is no `addr + len ≤ umem.size()` test anywhere on this
path (the fluxcapacitor engine's RX drain, runner.rs lines 114–141, has none
either). -/
def batchIterator_next (descs : List XDPDesc) (idx : Nat) : Option PacketRefModel :=
  if h : idx < descs.length then
    some ⟨((descs.get ⟨idx, h⟩).addr : Int),
          (descs.get ⟨idx, h⟩).len,
          (descs.get ⟨idx, h⟩).addr⟩
  else none

/-- C2, evaluation at the failing input: a drained descriptor with
`addr = 2048`, `len = 4` against a UMEM of `size() = 2048` (one 2048-byte
frame) satisfies `addr + len > umem.size()`, yet the iterator still exposes
its bytes as a `PacketRef` (pointer `base + 2048`, length 4) — the claimed
bounds check does not exist and the descriptor is not dropped. -/
theorem C2_no_bounds_check :
    2048 + 4 > (UmemLayout.mk 2048 1).size
    ∧ batchIterator_next [⟨2048, 4, 0⟩] 0 = some ⟨(2048 : Int), 4, 2048⟩ :=
  ⟨by decide, by decide⟩

/-- `PacketRef::adjust_head` (fluxcapacitor/src/packet/raw.rs lines 59–77):
a positive offset advances the pointer by at most `len` (clamping `len` to 0
beyond that); a non-positive offset moves the pointer BACK by `-offset`
bytes and grows `len`, with no check against the frame's (or UMEM's)
start. -/
def adjust_head (p : PacketRefModel) (offset : Int) : PacketRefModel :=
  if 0 < offset then
    if offset.toNat ≤ p.len then
      { p with ptrOff := p.ptrOff + offset.toNat, len := p.len - offset.toNat }
    else { p with len := 0 }
  else
    { p with ptrOff := p.ptrOff - (-offset).toNat, len := p.len + (-offset).toNat }

/-- C8, evaluation at the failing input: a `PacketRef` whose pointer sits at
the very start of UMEM (frame 0, offset 0, no headroom below) moved by
`adjust_head (-1)` ends up one byte BELOW the UMEM base (offset −1) with the
length grown to 65 — the unchecked negative branch underflows past the
frame's headroom. -/
theorem C8_adjust_head_underflow :
    (adjust_head ⟨0, 64, 0⟩ (-1)).ptrOff = -1
    ∧ (adjust_head ⟨0, 64, 0⟩ (-1)).ptrOff < 0
    ∧ (adjust_head ⟨0, 64, 0⟩ (-1)).len = 65 :=
  ⟨by decide, by decide, by decide⟩

/-! ### C10 — the simulator's `inject_packet` (fluxnet/src/simulator.rs) -/

/-- The mock ring mask: the simulator hard-codes `mask = 4096 - 1`. -/
def mockMask : Nat := 4096 - 1

/-- The per-socket simulator state reachable from `inject_packet`: the FILL
ring's producer/consumer words and `u64` slots, the RX ring's
producer/consumer words and descriptor slots, and the growable UMEM byte
buffer.  (TX and COMPLETION are untouched by `inject_packet`.) -/
structure MockSocketState where
  fill_prod : Nat
  fill_cons : Nat
  fill_slots : Nat → Nat
  rx_prod : Nat
  rx_cons : Nat
  rx_slots : Nat → XDPDesc
  umem : List Nat

/-- `Vec::resize(addr + len + 4096, 0)` when the data does not fit, else no
change. -/
def growUmem (umem : List Nat) (addr len : Nat) : List Nat :=
  if umem.length < addr + len then
    umem ++ List.replicate (addr + len + 4096 - umem.length) 0
  else umem

/-- `copy_nonoverlapping(data, umem + pos, data.len())`. -/
def listWrite (l : List Nat) (pos : Nat) (data : List Nat) : List Nat :=
  l.take pos ++ data ++ l.drop (pos + data.length)

/-- The successful body of `inject_packet` on the socket it found: pop one
address from FILL (`fill_slots[fill_cons & mask]`, consumer advanced by one),
grow UMEM if `addr + data.len() > umem.len()`, copy the bytes to UMEM at
`addr`, and publish one RX descriptor `{addr, len: data.len() as u32,
options: 0}` at `rx_prod & mask`, advancing the RX producer by one. -/
def injectInto (sock : MockSocketState) (data : List Nat) : MockSocketState :=
  { sock with
    fill_cons := wadd sock.fill_cons 1
    umem := listWrite
      (growUmem sock.umem (sock.fill_slots (sock.fill_cons &&& mockMask)) data.length)
      (sock.fill_slots (sock.fill_cons &&& mockMask)) data
    rx_slots := Function.update sock.rx_slots (sock.rx_prod &&& mockMask)
      ⟨sock.fill_slots (sock.fill_cons &&& mockMask), data.length % U32MOD, 0⟩
    rx_prod := wadd sock.rx_prod 1 }

/-- `control::inject_packet`: error when the fd is not registered, error when
the FILL ring is empty (`fill_cons == fill_prod`), otherwise mutate the found
socket in the registry.  (The registry mutex is modelled as always acquired —
the embedding is single-threaded.) -/
def inject_packet (sockets : Nat → Option MockSocketState) (fd : Nat)
    (data : List Nat) : Except String (Nat → Option MockSocketState) :=
  match sockets fd with
  | none => Except.error "Socket not found"
  | some sock =>
      if sock.fill_cons = sock.fill_prod then
        Except.error "RX Dropped: No buffers in Fill Ring"
      else
        Except.ok fun f => if f = fd then some (injectInto sock data) else sockets f

theorem growUmem_length (umem : List Nat) (addr len : Nat) :
    addr + len ≤ (growUmem umem addr len).length := by
  unfold growUmem
  split
  · simp only [List.length_append, List.length_replicate]
    omega
  · omega

theorem listWrite_length (l : List Nat) (pos : Nat) (data : List Nat)
    (h : pos + data.length ≤ l.length) :
    (listWrite l pos data).length = l.length := by
  simp only [listWrite, List.length_append, List.length_take, List.length_drop]
  omega

theorem listWrite_segment (l : List Nat) (pos : Nat) (data : List Nat)
    (h : pos ≤ l.length) :
    ((listWrite l pos data).drop pos).take data.length = data := by
  unfold listWrite
  have hlen1 : (l.take pos).length = pos := by
    rw [List.length_take]
    omega
  rw [List.append_assoc, List.drop_left' hlen1, List.take_left' rfl]

/-- C10: `inject_packet(fd, data)` fails exactly when the fd is unregistered
or the FILL ring is empty (`fill_prod = fill_cons`); oversized data is never
rejected — the mock UMEM grows to hold `addr + data.len()` bytes — and on
success the FILL consumer advances by one, the data lands in UMEM at the
popped address, and exactly one RX descriptor `{addr, len: data.len(),
options: 0}` is published, advancing the RX producer by one. -/
theorem C10_inject_packet (sockets : Nat → Option MockSocketState) (fd : Nat)
    (data : List Nat) (sock : MockSocketState)
    (hdlen : data.length < U32MOD) :
    (sockets fd = none → inject_packet sockets fd data = Except.error "Socket not found")
    ∧ (sockets fd = some sock → sock.fill_cons = sock.fill_prod →
        inject_packet sockets fd data
          = Except.error "RX Dropped: No buffers in Fill Ring")
    ∧ (sockets fd = some sock → sock.fill_cons ≠ sock.fill_prod →
        inject_packet sockets fd data
          = Except.ok fun f => if f = fd then some (injectInto sock data) else sockets f)
    ∧ (injectInto sock data).fill_cons = wadd sock.fill_cons 1
    ∧ (injectInto sock data).rx_prod = wadd sock.rx_prod 1
    ∧ (injectInto sock data).rx_slots (sock.rx_prod &&& mockMask)
        = ⟨sock.fill_slots (sock.fill_cons &&& mockMask), data.length, 0⟩
    ∧ sock.fill_slots (sock.fill_cons &&& mockMask) + data.length
        ≤ (injectInto sock data).umem.length
    ∧ ((injectInto sock data).umem.drop
        (sock.fill_slots (sock.fill_cons &&& mockMask))).take data.length = data := by
  have hgrow := growUmem_length sock.umem
    (sock.fill_slots (sock.fill_cons &&& mockMask)) data.length
  refine ⟨?_, ?_, ?_, rfl, rfl, ?_, ?_, ?_⟩
  · intro hs
    unfold inject_packet
    rw [hs]
  · intro hs hempty
    unfold inject_packet
    rw [hs]
    show (if sock.fill_cons = sock.fill_prod then _ else _) = _
    rw [if_pos hempty]
  · intro hs hne
    unfold inject_packet
    rw [hs]
    show (if sock.fill_cons = sock.fill_prod then _ else _) = _
    rw [if_neg hne]
  · show Function.update sock.rx_slots (sock.rx_prod &&& mockMask) _ _ = _
    rw [Function.update_same, Nat.mod_eq_of_lt hdlen]
  · show _ ≤ (listWrite _ _ data).length
    rw [listWrite_length _ _ _ hgrow]
    exact hgrow
  · show ((listWrite _ _ data).drop _).take data.length = data
    exact listWrite_segment _ _ _ (by omega)

/-- A registered mock socket (fd 3) with one FILL entry (address 0) and a
fresh, empty UMEM buffer. -/
def c10sock : MockSocketState :=
  { fill_prod := 1
    fill_cons := 0
    fill_slots := fun _ => 0
    rx_prod := 0
    rx_cons := 0
    rx_slots := fun _ => ⟨0, 0, 0⟩
    umem := [] }

/-- The mock registry holding only fd 3. -/
def c10sockets : Nat → Option MockSocketState :=
  fun f => if f = 3 then some c10sock else none

/-- C10, witness: injecting the two bytes `[0xAA, 0xBB]` into fd 3 — the
UMEM (previously empty) grows to hold them, the FILL consumer advances to 1
and one RX descriptor `{addr 0, len 2}` appears. -/
theorem C10_inject_packet_witness :
    (c10sockets 3 = none →
      inject_packet c10sockets 3 [170, 187] = Except.error "Socket not found")
    ∧ (c10sockets 3 = some c10sock → c10sock.fill_cons = c10sock.fill_prod →
        inject_packet c10sockets 3 [170, 187]
          = Except.error "RX Dropped: No buffers in Fill Ring")
    ∧ (c10sockets 3 = some c10sock → c10sock.fill_cons ≠ c10sock.fill_prod →
        inject_packet c10sockets 3 [170, 187]
          = Except.ok fun f =>
              if f = 3 then some (injectInto c10sock [170, 187]) else c10sockets f)
    ∧ (injectInto c10sock [170, 187]).fill_cons = wadd c10sock.fill_cons 1
    ∧ (injectInto c10sock [170, 187]).rx_prod = wadd c10sock.rx_prod 1
    ∧ (injectInto c10sock [170, 187]).rx_slots (c10sock.rx_prod &&& mockMask)
        = ⟨c10sock.fill_slots (c10sock.fill_cons &&& mockMask), 2, 0⟩
    ∧ c10sock.fill_slots (c10sock.fill_cons &&& mockMask) + 2
        ≤ (injectInto c10sock [170, 187]).umem.length
    ∧ ((injectInto c10sock [170, 187]).umem.drop
        (c10sock.fill_slots (c10sock.fill_cons &&& mockMask))).take 2 = [170, 187] :=
  C10_inject_packet c10sockets 3 [170, 187] c10sock (by decide)

/-- C9, witness: the layout `frame_size = 2048, frame_count = 4` at
`i = 3`, `a = 4096`, `b = 8192`. -/
theorem C9_layout_inverse_witness :
    (UmemLayout.mk 2048 4).size = 2048 * 4
    ∧ ((UmemLayout.mk 2048 4).idx_to_addr 3).bind (UmemLayout.mk 2048 4).addr_to_idx = some 3
    ∧ ((UmemLayout.mk 2048 4).addr_to_idx 4096).bind (UmemLayout.mk 2048 4).idx_to_addr = some 4096
    ∧ (8192 < (UmemLayout.mk 2048 4).size →
        (UmemLayout.mk 2048 4).addr_to_idx 8192 = some (8192 / 2048))
    ∧ ((UmemLayout.mk 2048 4).size ≤ 8192 →
        (UmemLayout.mk 2048 4).addr_to_idx 8192 = none) :=
  C9_layout_inverse (UmemLayout.mk 2048 4) 3 4096 8192
    (by decide) (by decide) (by decide) (by decide) (by decide)

end Fluxnet
